import Mathlib

/-
Verification of the VisionForge evaluation and telemetry core.

Shallow embedding of:
  apps/api/evaluation/evaluator.py  (compute_iou, match_predictions_to_gt,
                                     compute_ap, evaluate_detections)
  apps/api/main.py                  (InferenceStore: record_inference,
                                     get_evaluation, get_pr_curve,
                                     broadcast_event)

Modelling conventions:
  - Python floats are modelled as exact rationals.  Every arithmetic step of
    the source is kept, including the epsilon guard np.finfo(np.float64).eps.
    Because the Batteries rational operations are irreducible, the four
    arithmetic operations are given as reducible wrappers qadd, qsub, qmul,
    qdiv built on Rat.divInt; each is proved equal to the corresponding
    Mathlib operation below, so theorems can be read in ordinary terms.
  - Python dicts are modelled as insertion-ordered association lists; a key
    update keeps its position, a fresh key is appended, as CPython dicts do.
  - Python set iteration over image ids is modelled as first-occurrence order
    of the concatenated key lists; no claim below depends on that order.
  - Python list.sort is stable; it is modelled by List.insertionSort with a
    non-strict relation, which computes the identical (stable) result.
  - round(x, 4) is modelled as exact rounding half to even on rationals.
  - str.lower is modelled for ASCII letters, which covers the VOC class
    names used by the store.
-/

namespace VisionForge

/-- Exact rational addition, kernel-reducible (eq to + proved below). -/
def qadd (a b : ℚ) : ℚ := Rat.divInt (a.num * b.den + b.num * a.den) (a.den * b.den)

/-- Exact rational subtraction, kernel-reducible. -/
def qsub (a b : ℚ) : ℚ := Rat.divInt (a.num * b.den - b.num * a.den) (a.den * b.den)

/-- Exact rational multiplication, kernel-reducible. -/
def qmul (a b : ℚ) : ℚ := Rat.divInt (a.num * b.num) (a.den * b.den)

/-- Exact rational division, kernel-reducible; division by zero yields 0,
which the source never relies on (every division is guarded). -/
def qdiv (a b : ℚ) : ℚ := Rat.divInt (a.num * b.den) (a.den * b.num)

/-- Sum of a list of rationals in left-to-right order (np.sum, math.fsum of
exact values). -/
def qsum (l : List ℚ) : ℚ := l.foldl qadd 0

/-- Kernel-reducible embedding of a natural number into the rationals. -/
def natToQ (n : ℕ) : ℚ := Rat.divInt n 1

/-- Python max on two rationals (first argument wins a tie). -/
def pymax (a b : ℚ) : ℚ := if a < b then b else a

/-- Python min on two rationals (first argument wins a tie). -/
def pymin (a b : ℚ) : ℚ := if b < a then b else a

/-- Python round to the nearest integer, ties to even (the source applies
round(x, 4) to exact dashboard ratios). -/
def pyRoundInt (q : ℚ) : ℤ :=
  if q < Rat.divInt (2 * q.floor + 1) 2 then q.floor
  else if Rat.divInt (2 * q.floor + 1) 2 < q then q.floor + 1
  else if q.floor % 2 = 0 then q.floor else q.floor + 1

/-- Python round(x, 4). -/
def pyRound4 (q : ℚ) : ℚ := Rat.divInt (pyRoundInt (qmul q (natToQ 10000))) 10000

/-- Python str.lower for one ASCII character. -/
def pyCharLower (c : Char) : Char :=
  if 65 ≤ c.toNat ∧ c.toNat ≤ 90 then Char.ofNat (c.toNat + 32) else c

/-- Python str.lower (ASCII range, enough for the class names used here). -/
def pyLower (s : String) : String := ⟨s.data.map pyCharLower⟩

/-- Axis-aligned box; the source stores it as the list [x1, y1, x2, y2]. -/
structure Box where
  x1 : ℚ
  y1 : ℚ
  x2 : ℚ
  y2 : ℚ
deriving DecidableEq, Inhabited, Repr

/-- One formatted prediction record; evaluator.py expects the keys
class_name, confidence, bbox. -/
structure Pred where
  class_name : String
  confidence : ℚ
  bbox : Box
deriving DecidableEq, Inhabited, Repr

/-- One formatted ground-truth record with keys class_name, bbox, difficult
(the source reads difficult with gt.get("difficult", 0)). -/
structure GT where
  class_name : String
  bbox : Box
  difficult : Bool
deriving DecidableEq, Inhabited, Repr

/-- Source: compute_iou (evaluator.py lines 20-38). -/
def compute_iou (box_a box_b : Box) : ℚ :=
  let x1 := pymax box_a.x1 box_b.x1
  let y1 := pymax box_a.y1 box_b.y1
  let x2 := pymin box_a.x2 box_b.x2
  let y2 := pymin box_a.y2 box_b.y2
  let intersection := qmul (pymax 0 (qsub x2 x1)) (pymax 0 (qsub y2 y1))
  if intersection = 0 then 0
  else
    let area_a := qmul (qsub box_a.x2 box_a.x1) (qsub box_a.y2 box_a.y1)
    let area_b := qmul (qsub box_b.x2 box_b.x1) (qsub box_b.y2 box_b.y1)
    let union := qsub (qadd area_a area_b) intersection
    if 0 < union then qdiv intersection union else 0

/-- Inner loop of match_predictions_to_gt (evaluator.py lines 62-71): scan
the ground truths in order, skipping already matched indices, keeping the
first strictly best IoU.  The initial state (0.0, -1) is modelled as
(0, none). -/
def findBestGt (gts : List GT) (matched : List ℕ) (pbox : Box) : ℚ × Option ℕ :=
  gts.enum.foldl
    (fun best gi =>
      if gi.1 ∈ matched then best
      else
        let iou := compute_iou pbox gi.2.bbox
        if best.1 < iou then (iou, some gi.1) else best)
    (0, none)

/-- Ground-truth index committed to a prediction: evaluator.py line 73, the
test best_iou >= iou_threshold and best_gt_idx >= 0.  The difficult check
happens only after this commit test. -/
def matchChosen (gts : List GT) (iou_threshold : ℚ) (matched : List ℕ)
    (pred : Pred) : Option ℕ :=
  let best := findBestGt gts matched pred.bbox
  match best.2 with
  | some idx => if iou_threshold ≤ best.1 then some idx else none
  | none => none

/-- One iteration of the prediction loop (evaluator.py lines 61-81).  The
body either appends True (match committed on a non-difficult ground truth,
which is then marked consumed), appends False, or appends nothing at all
(the continue on a difficult best match); the appended value is modelled as
an Option Bool next to the updated matched set. -/
def matchStep (gts : List GT) (iou_threshold : ℚ) (matched : List ℕ)
    (pred : Pred) : Option Bool × List ℕ :=
  match matchChosen gts iou_threshold matched pred with
  | some idx =>
      if (gts.getD idx default).difficult then (none, matched)
      else (some true, idx :: matched)
  | none => (some false, matched)

/-- Per-prediction outcomes of the loop, one entry per prediction in order;
none marks a prediction dropped by the difficult continue. -/
def matchOutcomesAux (gts : List GT) (iou_threshold : ℚ) :
    List Pred → List ℕ → List (Option Bool)
  | [], _ => []
  | p :: ps, matched =>
      let r := matchStep gts iou_threshold matched p
      r.1 :: matchOutcomesAux gts iou_threshold ps r.2

def matchOutcomes (predictions : List Pred) (gts : List GT)
    (iou_threshold : ℚ) : List (Option Bool) :=
  matchOutcomesAux gts iou_threshold predictions []

/-- The committed ground-truth index of each prediction in order (before the
difficult check), used to express the at-most-one-match invariant. -/
def matchTraceAux (gts : List GT) (iou_threshold : ℚ) :
    List Pred → List ℕ → List (Option ℕ)
  | [], _ => []
  | p :: ps, matched =>
      matchChosen gts iou_threshold matched p ::
        matchTraceAux gts iou_threshold ps (matchStep gts iou_threshold matched p).2

def matchTrace (predictions : List Pred) (gts : List GT)
    (iou_threshold : ℚ) : List (Option ℕ) :=
  matchTraceAux gts iou_threshold predictions []

/-- Source: match_predictions_to_gt (evaluator.py lines 41-83).  tp_flags is
the list of booleans actually appended; n_gt counts the non-difficult ground
truths (line 57). -/
def match_predictions_to_gt (predictions : List Pred) (gts : List GT)
    (iou_threshold : ℚ) : List Bool × ℕ :=
  ((matchOutcomes predictions gts iou_threshold).filterMap id,
   (gts.filter (fun g => !g.difficult)).length)

/-- Suffix maxima: the backward sweep of compute_ap (evaluator.py lines
95-96) replaces precisions[i] by max(precisions[i], precisions[i+1]) from
the end, which makes each entry the maximum of its suffix. -/
def suffixMax : List ℚ → List ℚ
  | [] => []
  | p :: rest =>
      let r := suffixMax rest
      (match r.head? with
       | some q => pymax p q
       | none => p) :: r

/-- Source: compute_ap (evaluator.py lines 86-103): sentinel values, the
monotone sweep, then the sum of delta-recall times precision at every index
where recall changes, accumulated left to right as np.sum does. -/
def compute_ap (precisions recalls : List ℚ) : ℚ :=
  let ps := suffixMax (0 :: precisions ++ [0])
  let rs : List ℚ := 0 :: recalls ++ [1]
  ((rs.zip rs.tail).zip ps.tail).foldl
    (fun acc x => if x.1.1 ≠ x.1.2 then qadd acc (qmul (qsub x.1.2 x.1.1) x.2) else acc) 0

/-- Stable descending sort by a rational key: Python list.sort(key=...,
reverse=True).  Insertion with a non-strict relation reproduces the stable
result exactly. -/
def sortDescBy {β : Type} (key : β → ℚ) (l : List β) : List β :=
  List.insertionSort (fun a b => key b ≤ key a) l

/-- Cumulative (tp, fp) counts over the pooled (confidence, tp-flag) list
(evaluator.py lines 171-176). -/
def cumCountsAux : List (ℚ × Bool) → ℕ → ℕ → List (ℕ × ℕ)
  | [], _, _ => []
  | x :: xs, tp, fp =>
      let tp' := tp + (if x.2 then 1 else 0)
      let fp' := fp + (if x.2 then 0 else 1)
      (tp', fp') :: cumCountsAux xs tp' fp'

/-- Value of np.finfo(np.float64).eps. -/
def npEps : ℚ := Rat.divInt 1 (2 ^ 52)

/-- Source line 178: precisions = tp / maximum(tp + fp, eps). -/
def precisionsOf (l : List (ℚ × Bool)) : List ℚ :=
  (cumCountsAux l 0 0).map
    (fun c => qdiv (natToQ c.1) (pymax (qadd (natToQ c.1) (natToQ c.2)) npEps))

/-- Source line 179: recalls = tp / total_gt. -/
def recallsOf (l : List (ℚ × Bool)) (total_gt : ℕ) : List ℚ :=
  (cumCountsAux l 0 0).map (fun c => qdiv (natToQ c.1) (natToQ total_gt))

/-- One PR-curve point as stored by the evaluator (lines 189-200). -/
structure CurvePoint where
  precision : ℚ
  «recall» : ℚ
  confidence : ℚ
deriving DecidableEq, Inhabited, Repr

/-- Python range(0, n, step) for step >= 1: the j-th element is j * step and
there are ceil(n / step) of them. -/
def pyRange0 (n step : ℕ) : List ℕ :=
  (List.range ((n + step - 1) / step)).map (· * step)

/-- Source lines 185-200: subsampled PR curve of one class, stride
max(1, len // 50), then the last point appended when the list is non-empty. -/
def curvePoints (class_preds : List (ℚ × Bool)) (precisions recalls : List ℚ) :
    List CurvePoint :=
  let step := max 1 (precisions.length / 50)
  let base := (pyRange0 precisions.length step).map
    (fun i => CurvePoint.mk (precisions.getD i 0) (recalls.getD i 0)
      ((class_preds.getD i (0, false)).1))
  if 0 < precisions.length then
    base ++ [CurvePoint.mk (precisions.getLast?.getD 0) (recalls.getLast?.getD 0)
      ((class_preds.getLast?.getD (0, false)).1)]
  else base

/-- CPython dict write d[k] = v: update the first binding of k in place,
else append. -/
def alistSet {κ β : Type} [BEq κ] : List (κ × β) → κ → β → List (κ × β)
  | [], k, v => [(k, v)]
  | e :: es, k, v => if e.1 == k then (k, v) :: es else e :: alistSet es k v

/-- Per-model accumulated predictions: image id to formatted detections. -/
abbrev PredMap := List (String × List Pred)

/-- Per-model accumulated ground truths. -/
abbrev GtMap := List (String × List GT)

/-- Per-class body of the threshold loop (evaluator.py lines 140-201):
gather the class predictions and ground truths per image, match, pool
(confidence, tp-flag) pairs, and produce (AP, curve); classes with zero
non-difficult ground truths give (0, []).  The pooled pairs are produced by
zipping tp_flags positionally with the sorted image predictions, exactly as
the enumerate on line 159 does. -/
def evalClass (allP : PredMap) (allG : GtMap) (imageIds : List String)
    (cls : String) (iou_threshold : ℚ) : ℚ × List CurvePoint :=
  let gathered := imageIds.foldl
    (fun acc image_id =>
      let img_preds := sortDescBy Pred.confidence
        (((allP.lookup image_id).getD []).filter
          (fun p => pyLower p.class_name == pyLower cls))
      let img_gts := ((allG.lookup image_id).getD []).filter
        (fun g => pyLower g.class_name == pyLower cls)
      let mr := match_predictions_to_gt img_preds img_gts iou_threshold
      (acc.1 ++ (mr.1.zip img_preds).map (fun fp => (fp.2.confidence, fp.1)),
       acc.2 + mr.2))
    ([], 0)
  let total_gt := gathered.2
  if total_gt = 0 then (0, [])
  else
    let sorted := sortDescBy Prod.fst gathered.1
    let precisions := precisionsOf sorted
    let recalls := recallsOf sorted total_gt
    (compute_ap precisions recalls, curvePoints sorted precisions recalls)

/-- Source lines 203-205: mean of the per-class AP values that are strictly
positive, 0.0 when there are none. -/
def mAPofAps (aps : List ℚ) : ℚ :=
  let valid := aps.filter (fun a => 0 < a)
  if valid.isEmpty then 0 else qdiv (qsum valid) (natToQ valid.length)

/-- Result of one threshold iteration (evaluator.py lines 207-211). -/
structure ThresholdResult where
  mAP : ℚ
  per_class_ap : List (String × ℚ)
  pr_curves : List (String × List CurvePoint)
deriving DecidableEq, Inhabited

/-- One threshold iteration of evaluate_detections (lines 136-211). -/
def evalThreshold (allP : PredMap) (allG : GtMap) (class_names : List String)
    (imageIds : List String) (iou_threshold : ℚ) : ThresholdResult :=
  let acc := class_names.foldl
    (fun acc cls =>
      let r := evalClass allP allG imageIds cls iou_threshold
      (alistSet acc.1 cls r.1, alistSet acc.2 cls r.2))
    ([], [])
  ⟨mAPofAps (acc.1.map (·.2)), acc.1, acc.2⟩

/-- Aggregate TP / FP / non-difficult GT counts recomputed at threshold 0.5
(evaluator.py lines 229-240); note the source does not re-sort img_preds by
confidence in this pass. -/
def aggCounts (allP : PredMap) (allG : GtMap) (class_names : List String)
    (imageIds : List String) : ℕ × ℕ × ℕ :=
  class_names.foldl
    (fun acc cls =>
      imageIds.foldl
        (fun acc2 image_id =>
          let img_preds := ((allP.lookup image_id).getD []).filter
            (fun p => pyLower p.class_name == pyLower cls)
          let img_gts := ((allG.lookup image_id).getD []).filter
            (fun g => pyLower g.class_name == pyLower cls)
          let mr := match_predictions_to_gt img_preds img_gts (mkRat 1 2)
          (acc2.1 + (mr.1.filter id).length,
           acc2.2.1 + (mr.1.filter not).length,
           acc2.2.2 + mr.2))
        acc)
    (0, 0, 0)

/-- The returned evaluation record (evaluator.py lines 257-267). -/
structure EvalResult where
  mAP_50 : ℚ
  mAP_50_95 : ℚ
  aggregate_precision : ℚ
  aggregate_recall : ℚ
  per_class_ap : List (String × ℚ)
  pr_curves : List (String × List CurvePoint)
  total_predictions : ℕ
  total_ground_truths : ℕ
  iou_thresholds_used : List ℚ
deriving DecidableEq, Inhabited

/-- Mean of a list of rationals (np.mean). -/
def qmean (l : List ℚ) : ℚ := qdiv (qsum l) (natToQ l.length)

/-- Source: evaluate_detections (evaluator.py lines 106-267).  Every call
site passes iou_thresholds explicitly, so the None default of the source is
not modelled.  The image-id set built on lines 145 and 232 is the same pure
value each time, so it is hoisted; dict access at the float key 0.5 is the
lookup at the rational one half. -/
def evaluate_detections (all_predictions : PredMap) (all_ground_truths : GtMap)
    (class_names : List String) (iou_thresholds : List ℚ) : EvalResult :=
  let imageIds := (all_predictions.map (·.1) ++ all_ground_truths.map (·.1)).eraseDups
  let results_by_threshold := iou_thresholds.foldl
    (fun m thr =>
      alistSet m thr (evalThreshold all_predictions all_ground_truths class_names imageIds thr))
    []
  let mAP_50 := ((results_by_threshold.lookup (mkRat 1 2)).map (·.mAP)).getD 0
  let agg := aggCounts all_predictions all_ground_truths class_names imageIds
  let agg_precision := qdiv (natToQ agg.1) (natToQ (max 1 (agg.1 + agg.2.1)))
  let agg_recall := qdiv (natToQ agg.1) (natToQ (max 1 agg.2.2))
  let mAP_50_95 :=
    if 1 < iou_thresholds.length then qmean (results_by_threshold.map (fun e => e.2.mAP))
    else mAP_50
  { mAP_50 := mAP_50
    mAP_50_95 := mAP_50_95
    aggregate_precision := pyRound4 agg_precision
    aggregate_recall := pyRound4 agg_recall
    per_class_ap := ((results_by_threshold.lookup (mkRat 1 2)).map (·.per_class_ap)).getD []
    pr_curves := ((results_by_threshold.lookup (mkRat 1 2)).map (·.pr_curves)).getD []
    total_predictions := (all_predictions.map (fun e => e.2.length)).sum
    total_ground_truths :=
      (all_ground_truths.map (fun e => (e.2.filter (fun g => !g.difficult)).length)).sum
    iou_thresholds_used := iou_thresholds }

/-- Raw detection dict coming from a detector (main.py lines 114-118 read
the keys class, confidence, bbox). -/
structure DetIn where
  cls : String
  confidence : ℚ
  bbox : Box
deriving DecidableEq, Inhabited, Repr

/-- Raw ground-truth dict from the lookup path (main.py lines 122-126 read
class, bbox and difficult with g.get("difficult", 0)). -/
structure GtIn where
  cls : String
  bbox : Box
  difficult : Bool
deriving DecidableEq, Inhabited, Repr

/-- The parts of InferenceStore state that the evaluation claims touch
(main.py lines 79-93): the per-model prediction and ground-truth maps and
the evaluation cache.  The store initialises the two model keys yolov5 and
detr; the per-model maps are modelled as total functions from the model
name.  Latency and FPS histories are independent of these claims and are
not modelled. -/
structure StoreState where
  all_predictions : String → PredMap
  all_ground_truths : String → GtMap
  eval_cache : String → Option EvalResult

def initStore : StoreState :=
  ⟨fun _ => [], fun _ => [], fun _ => none⟩

/-- Source: InferenceStore.record_inference (main.py lines 95-130), reduced
to the modelled fields: on the first iteration of a burst it formats and
overwrites the ImageRecord for the image id and pops the evaluation cache
for that model; on any other iteration these fields are untouched. -/
def record_inference (s : StoreState) (model : String) (image_id : String)
    (detections : List DetIn) (ground_truths : List GtIn) (iteration : ℕ) :
    StoreState :=
  if iteration = 1 then
    let preds_formatted := detections.map (fun d => Pred.mk d.cls d.confidence d.bbox)
    let gts_formatted := ground_truths.map (fun g => GT.mk g.cls g.bbox g.difficult)
    { all_predictions := fun m =>
        if m == model then alistSet (s.all_predictions m) image_id preds_formatted
        else s.all_predictions m
      all_ground_truths := fun m =>
        if m == model then alistSet (s.all_ground_truths m) image_id gts_formatted
        else s.all_ground_truths m
      eval_cache := fun m => if m == model then none else s.eval_cache m }
  else s

/-- The twenty VOC class names hard-coded in get_evaluation (main.py lines
142-146). -/
def VOC_CLASSES : List String :=
  ["person", "bird", "cat", "cow", "dog", "horse", "sheep",
   "aeroplane", "bicycle", "boat", "bus", "car", "motorbike", "train",
   "bottle", "chair", "diningtable", "pottedplant", "sofa", "tvmonitor"]

/-- The pipeline output on the current accumulated maps of one model, the
value bound to result on main.py line 149. -/
def evalFor (s : StoreState) (model : String) : EvalResult :=
  evaluate_detections (s.all_predictions model) (s.all_ground_truths model)
    VOC_CLASSES [mkRat 1 2]

/-- Source: InferenceStore.get_evaluation (main.py lines 132-159): cached
result if present, absent when the model has no predictions at all,
otherwise the full pipeline at threshold 0.5, which is cached.  The
try/except of the source never fires in this total model. -/
def get_evaluation (s : StoreState) (model : String) :
    Option EvalResult × StoreState :=
  match s.eval_cache model with
  | some r => (some r, s)
  | none =>
      if (s.all_predictions model).isEmpty then (none, s)
      else
        (some (evalFor s model),
         { s with eval_cache := fun m =>
             if m == model then some (evalFor s model) else s.eval_cache m })

/-- One store operation: a record-write (with its burst iteration index) or
an evaluation read. -/
inductive StoreOp where
  | record (model image_id : String) (detections : List DetIn)
      (ground_truths : List GtIn) (iteration : ℕ)
  | getEval (model : String)

def stepOp (s : StoreState) : StoreOp → StoreState
  | .record m i d g it => record_inference s m i d g it
  | .getEval m => (get_evaluation s m).2

def runOps (ops : List StoreOp) : StoreState := ops.foldl stepOp initStore

/-- Cache-validity invariant of the store: every cached evaluation equals
the pipeline output on the current accumulated maps of that model. -/
def cacheOK (s : StoreState) : Prop :=
  ∀ m r, s.eval_cache m = some r →
    r = evaluate_detections (s.all_predictions m) (s.all_ground_truths m)
      VOC_CLASSES [mkRat 1 2]

/-- A returned PR point of get_pr_curve (main.py line 200). -/
structure RP where
  «recall» : ℚ
  precision : ℚ
deriving DecidableEq, Inhabited, Repr

/-- Ordering of curve points by recall, the sort key of main.py line 197. -/
def recallLE (a b : CurvePoint) : Prop := a.«recall» ≤ b.«recall»

instance : DecidableRel recallLE :=
  fun a b => inferInstanceAs (Decidable (a.«recall» ≤ b.«recall»))

instance : IsTotal CurvePoint recallLE :=
  ⟨fun a b => le_total a.«recall» b.«recall»⟩

instance : IsTrans CurvePoint recallLE :=
  ⟨fun _ _ _ h h2 => le_trans h h2⟩

/-- Core of InferenceStore.get_pr_curve (main.py lines 193-202): the pooled
points are sorted by recall (stable), strided by max(1, len // 50), and
projected to rounded (recall, precision) pairs. -/
def pr_curve_subsample (all_points : List CurvePoint) : List RP :=
  if all_points.isEmpty then []
  else
    let sorted := List.insertionSort recallLE all_points
    let step := max 1 (all_points.length / 50)
    ((pyRange0 sorted.length step).filterMap (sorted.get? ·)).map
      (fun p => RP.mk (pyRound4 p.«recall») (pyRound4 p.precision))

/-- Source: InferenceStore.get_pr_curve (main.py lines 182-202): evaluate
(possibly filling the cache), pool the per-class curves in dict order, and
subsample. -/
def get_pr_curve (s : StoreState) (model : String) : List RP × StoreState :=
  let r := get_evaluation s model
  match r.1 with
  | none => ([], r.2)
  | some ev => (pr_curve_subsample ((ev.pr_curves.map (·.2)).flatten), r.2)

/-- One SSE subscriber: a bounded asyncio.Queue (main.py line 636 uses
maxsize 100) holding already queued events. -/
structure Subscriber (α : Type) where
  queue : List α
  maxsize : ℕ
deriving DecidableEq, Repr

/-- asyncio.Queue.put_nowait raises QueueFull exactly when the queue is
bounded and holds at least maxsize items. -/
def queueFull {α : Type} (s : Subscriber α) : Bool :=
  decide (0 < s.maxsize) && decide (s.maxsize ≤ s.queue.length)

/-- Source: InferenceStore.broadcast_event (main.py lines 215-224): each
subscriber receives the event with a non-waiting put; the ones whose put
raised QueueFull are collected and then removed from the subscriber list.
The two phases of the source (deliver collecting dead, then remove dead by
identity) are modelled positionally. -/
def broadcast_event {α : Type} (subscribers : List (Subscriber α)) (event : α) :
    List (Subscriber α) :=
  let processed := subscribers.map
    (fun s => if queueFull s then (s, true) else (Subscriber.mk (s.queue ++ [event]) s.maxsize, false))
  (processed.filter (fun p => !p.2)).map (·.1)

/-- The unit square box used by the concrete scenarios. -/
def box10 : Box := ⟨0, 0, 10, 10⟩

/-- A prediction of class cat at confidence 0.9 on the scenario box. -/
def catPred : Pred := ⟨"cat", mkRat 9 10, box10⟩

/-- Concrete inputs: one prediction fully overlapping one difficult ground
truth. -/
def onePred : List Pred := [catPred]

def oneDifficultGt : List GT := [⟨"cat", box10, true⟩]

/-- Concrete inputs: two predictions, confidences descending, both fully
overlapping the same single ground truth. -/
def twoPreds : List Pred := [catPred, ⟨"cat", mkRat 8 10, box10⟩]

def oneGt : List GT := [⟨"cat", box10, false⟩]

/-- Concrete store trace for the cat scenario: one image, one ground truth,
one matching prediction at confidence 0.9, recorded at iteration 1. -/
def catOps : List StoreOp :=
  [StoreOp.record "yolov5" "img1" [⟨"cat", mkRat 9 10, box10⟩] [⟨"cat", box10, false⟩] 1]

/-- Concrete store trace used by the cache witness: one iteration-1 write
with no detections and no ground truths. -/
def emptyWriteOps : List StoreOp :=
  [StoreOp.record "yolov5" "img1" [] [] 1]

/-- A pooled PR point set of 99 points with increasing recalls. -/
def pts99 : List CurvePoint :=
  (List.range 99).map (fun i => CurvePoint.mk 1 (Rat.divInt i 100) (mkRat 1 2))

/-- Ninety-eight cat detections on the scenario box with strictly
descending confidences. -/
def dets98 : List DetIn :=
  (List.range 98).map (fun i => DetIn.mk "cat" (Rat.divInt (99 - i) 100) box10)

/-- Concrete store trace whose single class curve has 99 points (98
predictions plus the appended last point), so the pooled PR point set of
get_pr_curve has 99 points. -/
def ops98 : List StoreOp :=
  [StoreOp.record "yolov5" "img1" dets98 [GtIn.mk "cat" box10 false] 1]

/-! Bridge lemmas: the reducible arithmetic agrees with the Mathlib
operations on ℚ. -/

theorem qadd_eq (a b : ℚ) : qadd a b = a + b := by
  rw [qadd]
  conv_rhs => rw [← Rat.num_divInt_den a, ← Rat.num_divInt_den b]
  rw [Rat.divInt_add_divInt _ _ (Int.natCast_ne_zero.mpr a.den_nz)
    (Int.natCast_ne_zero.mpr b.den_nz)]

theorem qsub_eq (a b : ℚ) : qsub a b = a - b := by
  have h : qsub a b = qadd a (-b) := by
    rw [qsub, qadd, Rat.neg_num, Rat.neg_den]
    congr 1
    ring
  rw [h, qadd_eq, sub_eq_add_neg]

theorem qmul_eq (a b : ℚ) : qmul a b = a * b := by
  rw [qmul]
  conv_rhs => rw [← Rat.num_divInt_den a, ← Rat.num_divInt_den b]
  rw [Rat.divInt_mul_divInt _ _ (Int.natCast_ne_zero.mpr a.den_nz)
    (Int.natCast_ne_zero.mpr b.den_nz)]

theorem qdiv_eq (a b : ℚ) : qdiv a b = a / b := by
  by_cases hb : b = 0
  · subst hb
    rw [qdiv, div_zero, Rat.num_zero, mul_zero, Rat.divInt_zero]
  · have hnum : b.num ≠ 0 := Rat.num_ne_zero.mpr hb
    rw [qdiv, div_eq_mul_inv, show b⁻¹ = Rat.divInt b.den b.num from Rat.inv_def b]
    conv_rhs => rw [← Rat.num_divInt_den a]
    rw [Rat.divInt_mul_divInt _ _ (Int.natCast_ne_zero.mpr a.den_nz) hnum]

theorem natToQ_eq (n : ℕ) : natToQ n = (n : ℚ) := by
  rw [natToQ, Rat.divInt_one]
  push_cast
  rfl

theorem qsum_foldl (l : List ℚ) : ∀ a : ℚ, l.foldl qadd a = l.foldl (· + ·) a := by
  induction l with
  | nil => intro a; rfl
  | cons x xs ih => intro a; simp only [List.foldl_cons, qadd_eq, ih]

theorem qsum_eq (l : List ℚ) : qsum l = l.sum := by
  rw [qsum, qsum_foldl, List.sum_eq_foldl]

theorem qmean_eq (l : List ℚ) : qmean l = l.sum / (l.length : ℚ) := by
  rw [qmean, qdiv_eq, qsum_eq, natToQ_eq]

theorem pymax_eq (a b : ℚ) : pymax a b = max a b := by
  by_cases h : a < b
  · simp [pymax, h, max_eq_right h.le]
  · push_neg at h
    simp [pymax, not_lt.mpr h, max_eq_left h]

theorem pymin_eq (a b : ℚ) : pymin a b = min a b := by
  by_cases h : b < a
  · simp [pymin, h, min_eq_right h.le]
  · push_neg at h
    simp [pymin, not_lt.mpr h, min_eq_left h]

theorem mkRat_half : (mkRat 1 2 : ℚ) = 1 / 2 := by
  rw [Rat.mkRat_eq_div]
  norm_num

theorem ratFloor_eq (q : ℚ) : q.floor = Int.floor q := by
  rw [Rat.floor_def', ← Rat.floor_def]

/-! Association-list (Python dict) lemmas. -/

theorem alistSet_lookup_self {κ β : Type} [BEq κ] [LawfulBEq κ]
    (m : List (κ × β)) (k : κ) (v : β) : (alistSet m k v).lookup k = some v := by
  induction m with
  | nil => simp [alistSet, List.lookup]
  | cons e es ih =>
      rcases e with ⟨k', v'⟩
      by_cases h : k' = k
      · subst h
        simp [alistSet, List.lookup]
      · have h1 : ((k', v').1 == k) = false := beq_eq_false_iff_ne.mpr h
        have h2 : (k == k') = false := beq_eq_false_iff_ne.mpr (fun hk => h hk.symm)
        simp [alistSet, h1, List.lookup, h2, ih]

theorem alistSet_lookup_ne {κ β : Type} [BEq κ] [LawfulBEq κ]
    (m : List (κ × β)) (k k' : κ) (v : β) (h : ¬ k = k') :
    (alistSet m k' v).lookup k = m.lookup k := by
  have hkk : (k == k') = false := beq_eq_false_iff_ne.mpr h
  induction m with
  | nil => simp [alistSet, List.lookup, hkk]
  | cons e es ih =>
      rcases e with ⟨a, b⟩
      by_cases ha : a = k'
      · subst ha
        simp [alistSet, List.lookup, hkk]
      · have ha2 : ((a, b).1 == k') = false := beq_eq_false_iff_ne.mpr ha
        by_cases hka : k = a
        · subst hka
          simp [alistSet, ha2, List.lookup]
        · have hka2 : (k == a) = false := beq_eq_false_iff_ne.mpr hka
          simp [alistSet, ha2, List.lookup, hka2, ih]

theorem foldl_alistSet_lookup {κ β : Type} [BEq κ] [LawfulBEq κ] [DecidableEq κ]
    (f : κ → β) :
    ∀ (l : List κ) (m : List (κ × β)) (k : κ),
      (l.foldl (fun acc t => alistSet acc t (f t)) m).lookup k
        = if k ∈ l then some (f k) else m.lookup k := by
  intro l
  induction l with
  | nil => intro m k; simp
  | cons t ts ih =>
      intro m k
      rw [List.foldl_cons, ih]
      by_cases hts : k ∈ ts
      · simp [hts, List.mem_cons]
      · by_cases hkt : k = t
        · subst hkt
          simp [hts, alistSet_lookup_self]
        · simp [hts, hkt, alistSet_lookup_ne _ _ _ _ hkt]

/-! Matcher lemmas. -/

theorem findBestGt_some_not_matched (gts : List GT) (matched : List ℕ) (pbox : Box) :
    ∀ i, (findBestGt gts matched pbox).2 = some i → i ∉ matched := by
  rw [findBestGt]
  have key : ∀ (l : List (ℕ × GT)) (acc : ℚ × Option ℕ),
      (∀ j, acc.2 = some j → j ∉ matched) →
      ∀ j, (l.foldl
        (fun best gi =>
          if gi.1 ∈ matched then best
          else
            let iou := compute_iou pbox gi.2.bbox
            if best.1 < iou then (iou, some gi.1) else best) acc).2 = some j →
        j ∉ matched := by
    intro l
    induction l with
    | nil => intro acc hacc j hj; exact hacc j hj
    | cons gi l ih =>
        intro acc hacc j
        rw [List.foldl_cons]
        apply ih
        intro j' hj'
        by_cases hm : gi.1 ∈ matched
        · simp only [hm, if_true] at hj'
          exact hacc j' hj'
        · simp only [hm, if_false] at hj'
          by_cases hlt : acc.1 < compute_iou pbox gi.2.bbox
          · simp only [hlt, if_true] at hj'
            cases hj'
            exact hm
          · simp only [hlt, if_false] at hj'
            exact hacc j' hj'
  intro i
  exact key gts.enum (0, none) (by intro j hj; cases hj) i

theorem matchChosen_not_matched (gts : List GT) (thr : ℚ) (matched : List ℕ)
    (pred : Pred) (i : ℕ) (h : matchChosen gts thr matched pred = some i) :
    i ∉ matched := by
  rw [matchChosen] at h
  cases hb : (findBestGt gts matched pred.bbox).2 with
  | none => rw [hb] at h; cases h
  | some idx =>
      rw [hb] at h
      by_cases hthr : thr ≤ (findBestGt gts matched pred.bbox).1
      · simp only [hthr, if_true, Option.some.injEq] at h
        subst h
        exact findBestGt_some_not_matched gts matched pred.bbox idx hb
      · simp only [hthr, if_false] at h
        cases h

theorem matchStep_matched_mono (gts : List GT) (thr : ℚ) (matched : List ℕ)
    (pred : Pred) : matched ⊆ (matchStep gts thr matched pred).2 := by
  rw [matchStep]
  cases matchChosen gts thr matched pred with
  | none => exact fun x hx => hx
  | some idx =>
      dsimp only
      by_cases hd : (gts.getD idx default).difficult = true
      · rw [if_pos hd]
        exact fun x hx => hx
      · rw [if_neg hd]
        exact fun x hx => List.mem_cons_of_mem _ hx

theorem matchStep_snd_of_chosen_nondiff (gts : List GT) (thr : ℚ)
    (matched : List ℕ) (pred : Pred) (i : ℕ)
    (hc : matchChosen gts thr matched pred = some i)
    (hd : (gts.getD i default).difficult = false) :
    (matchStep gts thr matched pred).2 = i :: matched := by
  have hd' : (gts[i]?.getD default).difficult = false := by
    rw [← List.getD_eq_getElem?_getD]; exact hd
  simp [matchStep, hc, hd']

theorem matchTraceAux_count_le (gts : List GT) (thr : ℚ) (i : ℕ)
    (hdiff : (gts.getD i default).difficult = false) :
    ∀ (preds : List Pred) (matched : List ℕ),
      (i ∈ matched → (some i) ∉ matchTraceAux gts thr preds matched) ∧
      (matchTraceAux gts thr preds matched).count (some i) ≤ 1 := by
  intro preds
  induction preds with
  | nil =>
      intro matched
      exact ⟨fun _ h => (List.not_mem_nil _ h), by simp [matchTraceAux]⟩
  | cons p ps ih =>
      intro matched
      constructor
      · intro hmem
        rw [matchTraceAux]
        intro hin
        rcases List.mem_cons.mp hin with hhead | htail
        · exact matchChosen_not_matched gts thr matched p i hhead.symm hmem
        · exact (ih (matchStep gts thr matched p).2).1
            (matchStep_matched_mono gts thr matched p hmem) htail
      · rw [matchTraceAux, List.count_cons]
        by_cases hc : matchChosen gts thr matched p = some i
        · have hm2 : (matchStep gts thr matched p).2 = i :: matched :=
            matchStep_snd_of_chosen_nondiff gts thr matched p i hc hdiff
          have hnotin : (some i) ∉ matchTraceAux gts thr ps (matchStep gts thr matched p).2 := by
            apply (ih (matchStep gts thr matched p).2).1
            rw [hm2]
            exact List.mem_cons_self i matched
          rw [List.count_eq_zero.mpr hnotin]
          simp [hc]
        · have : (matchChosen gts thr matched p == some i) = false := by
            simp [beq_iff_eq, hc]
          rw [this]
          simpa using (ih (matchStep gts thr matched p).2).2

theorem matchOutcomesAux_length (gts : List GT) (thr : ℚ) :
    ∀ (preds : List Pred) (matched : List ℕ),
      (matchOutcomesAux gts thr preds matched).length = preds.length := by
  intro preds
  induction preds with
  | nil => intro matched; rfl
  | cons p ps ih => intro matched; simp [matchOutcomesAux, ih]

theorem getD_difficult_false (gts : List GT) (idx : ℕ)
    (hnd : ∀ g ∈ gts, g.difficult = false) :
    (gts.getD idx default).difficult = false := by
  by_cases h : idx < gts.length
  · have he : gts.getD idx default = (gts.get? idx).getD default := rfl
    rw [he]
    cases hg : gts.get? idx with
    | none =>
        exact absurd (List.get?_eq_none.mp hg) (Nat.not_le_of_lt h)
    | some g => simpa using hnd g (List.get?_mem hg)
  · rw [List.getD_eq_default _ _ (Nat.le_of_not_lt h)]
    rfl

theorem matchStep_fst_some_of_nodiff (gts : List GT) (thr : ℚ)
    (matched : List ℕ) (pred : Pred) (hnd : ∀ g ∈ gts, g.difficult = false) :
    ∃ b, (matchStep gts thr matched pred).1 = some b := by
  rw [matchStep]
  cases matchChosen gts thr matched pred with
  | none => exact ⟨false, rfl⟩
  | some idx =>
      have hd' : (gts[idx]?.getD default).difficult = false := by
        rw [← List.getD_eq_getElem?_getD]
        exact getD_difficult_false gts idx hnd
      exact ⟨true, by simp [hd']⟩

theorem matchOutcomesAux_nodiff (gts : List GT) (thr : ℚ)
    (hnd : ∀ g ∈ gts, g.difficult = false) :
    ∀ (preds : List Pred) (matched : List ℕ),
      matchOutcomesAux gts thr preds matched
        = ((matchOutcomesAux gts thr preds matched).filterMap id).map some := by
  intro preds
  induction preds with
  | nil => intro matched; rfl
  | cons p ps ih =>
      intro matched
      rw [matchOutcomesAux]
      obtain ⟨b, hb⟩ := matchStep_fst_some_of_nodiff gts thr matched p hnd
      rw [hb]
      simp only [List.filterMap_cons, id, List.map_cons]
      exact congrArg _ (ih (matchStep gts thr matched p).2)

/-! Claim theorems. -/

/-- Claim C1, counterexample.  One prediction fully overlapping a single
difficult ground truth at threshold 0.5: the prediction is dropped by the
continue, so tp_flags is empty while the prediction list has one element —
tp_flags is not aligned one-to-one with the predictions, refuting the claim
that len(tp_flags) always equals len(predictions). -/
theorem tp_flags_alignment_cex :
    (match_predictions_to_gt onePred oneDifficultGt (mkRat 1 2)).1.length = 0
    ∧ onePred.length = 1 := by
  constructor
  · decide
  · decide

/-- Claim C1, amended.  When no ground truth is difficult (so the difficult
continue can never fire), tp_flags carries exactly one boolean per input
prediction in the predictions given order: the per-prediction outcome list
equals tp_flags mapped into some, and len(tp_flags) = len(predictions).  In
general a prediction whose best match is an above-threshold difficult ground
truth contributes no flag at all. -/
theorem tp_flags_aligned_without_difficult (predictions : List Pred)
    (gts : List GT) (iou_threshold : ℚ)
    (hnd : ∀ g ∈ gts, g.difficult = false) :
    matchOutcomes predictions gts iou_threshold
        = (match_predictions_to_gt predictions gts iou_threshold).1.map some
    ∧ (match_predictions_to_gt predictions gts iou_threshold).1.length
        = predictions.length := by
  have h1 := matchOutcomesAux_nodiff gts iou_threshold hnd predictions []
  refine ⟨h1, ?_⟩
  have h2 : (matchOutcomes predictions gts iou_threshold).length = predictions.length :=
    matchOutcomesAux_length gts iou_threshold predictions []
  have h3 := congrArg List.length h1
  rw [List.length_map] at h3
  simp only [match_predictions_to_gt, matchOutcomes] at h2 ⊢
  rw [← h3]
  exact h2

/-- Witness for the amended C1 theorem at a concrete input. -/
theorem tp_flags_aligned_witness :
    matchOutcomes twoPreds oneGt (mkRat 1 2)
        = (match_predictions_to_gt twoPreds oneGt (mkRat 1 2)).1.map some
    ∧ (match_predictions_to_gt twoPreds oneGt (mkRat 1 2)).1.length
        = twoPreds.length :=
  tp_flags_aligned_without_difficult twoPreds oneGt (mkRat 1 2) (by decide)

/-- Claim C2, counterexample.  The matched set never receives difficult
ground truths: with two predictions fully overlapping one difficult ground
truth at threshold 0.5, both predictions commit to ground truth 0, so a
difficult ground truth is matched twice within one pass, refuting the
invariant for difficult and non-difficult ground truths alike. -/
theorem difficult_rematch_cex :
    (matchTrace twoPreds oneDifficultGt (mkRat 1 2)).count (some 0) = 2 := by
  decide

/-- Claim C2, amended.  The at-most-one-match invariant holds for every
non-difficult ground truth: within one matching pass at most one prediction
commits to it; and in the concrete two-prediction scenario at threshold 0.5
the first (higher-confidence) prediction is flagged true-positive and the
second false-positive.  A difficult ground truth is never added to the
matched set and may be committed to repeatedly (each such prediction is then
dropped). -/
theorem at_most_one_match_per_nondifficult_gt :
    (∀ (predictions : List Pred) (gts : List GT) (iou_threshold : ℚ) (i : ℕ),
        (gts.getD i default).difficult = false →
        (matchTrace predictions gts iou_threshold).count (some i) ≤ 1)
    ∧ (match_predictions_to_gt twoPreds oneGt (mkRat 1 2)).1 = [true, false] := by
  constructor
  · intro predictions gts iou_threshold i hd
    exact (matchTraceAux_count_le gts iou_threshold i hd predictions []).2
  · decide

/-- Witness for the amended C2 theorem at a concrete input. -/
theorem at_most_one_match_witness :
    (matchTrace twoPreds oneGt (mkRat 1 2)).count (some 0) ≤ 1 :=
  at_most_one_match_per_nondifficult_gt.1 twoPreds oneGt (mkRat 1 2) 0 (by decide)

/-- Claim C3.  A prediction whose committed best ground truth meets the IoU
threshold but is difficult produces no outcome at all (neither a
true-positive nor a false-positive flag), tp_flags is exactly the list of
non-dropped outcomes, and n_gt is the number of non-difficult ground truths
in the input. -/
theorem difficult_neither_tp_nor_fp (predictions : List Pred) (gts : List GT)
    (iou_threshold : ℚ) :
    (match_predictions_to_gt predictions gts iou_threshold).2
        = (gts.filter (fun g => !g.difficult)).length
    ∧ (∀ (matched : List ℕ) (pred : Pred) (i : ℕ),
        matchChosen gts iou_threshold matched pred = some i →
        (gts.getD i default).difficult = true →
        (matchStep gts iou_threshold matched pred).1 = none)
    ∧ (match_predictions_to_gt predictions gts iou_threshold).1
        = (matchOutcomes predictions gts iou_threshold).filterMap id := by
  refine ⟨rfl, ?_, rfl⟩
  intro matched pred i hc hd
  have hd' : (gts[i]?.getD default).difficult = true := by
    rw [← List.getD_eq_getElem?_getD]
    exact hd
  simp [matchStep, hc, hd']

/-- Witness for the C3 theorem at a concrete input. -/
theorem difficult_neither_witness :
    (matchStep oneDifficultGt (mkRat 1 2) [] catPred).1 = none :=
  (difficult_neither_tp_nor_fp onePred oneDifficultGt (mkRat 1 2)).2.1
    [] catPred 0 (by decide) (by decide)

/-! Store cache lemmas. -/

theorem cacheOK_init : cacheOK initStore := by
  intro m r h
  cases h

theorem cacheOK_record (s : StoreState) (model image_id : String)
    (dets : List DetIn) (gts : List GtIn) (iteration : ℕ) (h : cacheOK s) :
    cacheOK (record_inference s model image_id dets gts iteration) := by
  by_cases hit : iteration = 1
  · intro m r hc
    simp only [record_inference, hit, if_true] at hc ⊢
    by_cases hm : (m == model) = true
    · rw [if_pos hm] at hc
      cases hc
    · rw [if_neg hm] at hc
      rw [if_neg hm, if_neg hm]
      exact h m r hc
  · simpa only [record_inference, hit, if_false] using h

theorem get_evaluation_hit (s : StoreState) (model : String) (r : EvalResult)
    (h : s.eval_cache model = some r) : get_evaluation s model = (some r, s) := by
  unfold get_evaluation
  rw [h]

theorem get_evaluation_absent (s : StoreState) (model : String)
    (h1 : s.eval_cache model = none)
    (h2 : (s.all_predictions model).isEmpty = true) :
    get_evaluation s model = (none, s) := by
  unfold get_evaluation
  rw [h1]
  exact if_pos h2

theorem get_evaluation_miss (s : StoreState) (model : String)
    (h1 : s.eval_cache model = none)
    (h2 : (s.all_predictions model).isEmpty = false) :
    get_evaluation s model =
      (some (evalFor s model),
       { s with eval_cache := fun m =>
           if m == model then some (evalFor s model) else s.eval_cache m }) := by
  unfold get_evaluation
  rw [h1]
  exact if_neg (by rw [h2]; exact Bool.false_ne_true)

theorem cacheOK_getEval (s : StoreState) (model : String) (h : cacheOK s) :
    cacheOK (get_evaluation s model).2 := by
  cases hcache : s.eval_cache model with
  | some r0 =>
      rw [get_evaluation_hit s model r0 hcache]
      exact h
  | none =>
      cases hemp : (s.all_predictions model).isEmpty with
      | true =>
          rw [get_evaluation_absent s model hcache hemp]
          exact h
      | false =>
          rw [get_evaluation_miss s model hcache hemp]
          intro m r hc
          by_cases hm : (m == model) = true
          · have hc2 : (if (m == model) = true then some (evalFor s model)
                else s.eval_cache m) = some r := hc
            rw [if_pos hm] at hc2
            have hr : evalFor s model = r := Option.some.inj hc2
            have hm2 : m = model := eq_of_beq hm
            subst hm2
            exact hr ▸ (rfl : evalFor s m = evalFor s m)
          · have hc2 : (if (m == model) = true then some (evalFor s model)
                else s.eval_cache m) = some r := hc
            rw [if_neg hm] at hc2
            exact h m r hc2

theorem cacheOK_step (s : StoreState) (op : StoreOp) (h : cacheOK s) :
    cacheOK (stepOp s op) := by
  cases op with
  | record m i d g it => exact cacheOK_record s m i d g it h
  | getEval m => exact cacheOK_getEval s m h

theorem cacheOK_foldl (ops : List StoreOp) :
    ∀ s : StoreState, cacheOK s → cacheOK (ops.foldl stepOp s) := by
  induction ops with
  | nil => intro s h; exact h
  | cons op ops ih =>
      intro s h
      rw [List.foldl_cons]
      exact ih _ (cacheOK_step s op h)

theorem cacheOK_runOps (ops : List StoreOp) : cacheOK (runOps ops) :=
  cacheOK_foldl ops initStore cacheOK_init

/-- Claim C4.  For every sequence of store operations and every model, a
non-absent get_evaluation result equals the evaluation pipeline applied to
the store's current accumulated prediction and ground-truth maps for that
model (so a cached result is never served stale past an iteration-1 write,
which always pops the cache); and a second get_evaluation with no
intervening write returns the identical result. -/
theorem get_evaluation_fresh_and_consistent (ops : List StoreOp) (model : String) :
    ((get_evaluation (runOps ops) model).1 = none ∨
      (get_evaluation (runOps ops) model).1
        = some (evaluate_detections ((runOps ops).all_predictions model)
            ((runOps ops).all_ground_truths model) VOC_CLASSES [mkRat 1 2]))
    ∧ (get_evaluation (get_evaluation (runOps ops) model).2 model).1
        = (get_evaluation (runOps ops) model).1 := by
  have hok : cacheOK (runOps ops) := cacheOK_runOps ops
  constructor
  · cases hcache : (runOps ops).eval_cache model with
    | some r =>
        right
        rw [get_evaluation_hit _ model r hcache]
        exact congrArg some (hok model r hcache)
    | none =>
        cases hemp : ((runOps ops).all_predictions model).isEmpty with
        | true =>
            left
            rw [get_evaluation_absent _ model hcache hemp]
        | false =>
            right
            rw [get_evaluation_miss _ model hcache hemp]
            rfl
  · cases hcache : (runOps ops).eval_cache model with
    | some r =>
        rw [get_evaluation_hit _ model r hcache, get_evaluation_hit _ model r hcache]
    | none =>
        cases hemp : ((runOps ops).all_predictions model).isEmpty with
        | true =>
            rw [get_evaluation_absent _ model hcache hemp,
              get_evaluation_absent _ model hcache hemp]
        | false =>
            rw [get_evaluation_miss _ model hcache hemp]
            rw [get_evaluation_hit _ model (evalFor (runOps ops) model)
              (by simp)]

/-- Concrete cache-freshness equation shown by applying the C4 theorem at
an explicit one-write trace. -/
theorem get_evaluation_fresh_witness :
    (get_evaluation (runOps emptyWriteOps) "yolov5").1
      = some (evaluate_detections ((runOps emptyWriteOps).all_predictions "yolov5")
          ((runOps emptyWriteOps).all_ground_truths "yolov5") VOC_CLASSES [mkRat 1 2]) := by
  rcases (get_evaluation_fresh_and_consistent emptyWriteOps "yolov5").1 with h | h
  · exact absurd h (by decide)
  · exact h

/-! Projection equations for evaluate_detections and the mAP policy. -/

theorem evaluate_mAP50_proj (P : PredMap) (G : GtMap) (class_names : List String)
    (iou_thresholds : List ℚ) :
    (evaluate_detections P G class_names iou_thresholds).mAP_50
      = (((iou_thresholds.foldl (fun m thr => alistSet m thr
            (evalThreshold P G class_names ((P.map (·.1) ++ G.map (·.1)).eraseDups) thr)) []).lookup
          (mkRat 1 2)).map (·.mAP)).getD 0 := rfl

theorem evaluate_per_class_ap_proj (P : PredMap) (G : GtMap) (class_names : List String)
    (iou_thresholds : List ℚ) :
    (evaluate_detections P G class_names iou_thresholds).per_class_ap
      = (((iou_thresholds.foldl (fun m thr => alistSet m thr
            (evalThreshold P G class_names ((P.map (·.1) ++ G.map (·.1)).eraseDups) thr)) []).lookup
          (mkRat 1 2)).map (·.per_class_ap)).getD [] := rfl

theorem evaluate_pr_curves_proj (P : PredMap) (G : GtMap) (class_names : List String)
    (iou_thresholds : List ℚ) :
    (evaluate_detections P G class_names iou_thresholds).pr_curves
      = (((iou_thresholds.foldl (fun m thr => alistSet m thr
            (evalThreshold P G class_names ((P.map (·.1) ++ G.map (·.1)).eraseDups) thr)) []).lookup
          (mkRat 1 2)).map (·.pr_curves)).getD [] := rfl

theorem evalThreshold_mAP_eq (P : PredMap) (G : GtMap) (class_names : List String)
    (imageIds : List String) (iou_threshold : ℚ) :
    (evalThreshold P G class_names imageIds iou_threshold).mAP
      = mAPofAps ((evalThreshold P G class_names imageIds iou_threshold).per_class_ap.map (·.2)) :=
  rfl

theorem lookup_half_of_mem (P : PredMap) (G : GtMap) (class_names : List String)
    (iou_thresholds : List ℚ) (h : (mkRat 1 2 : ℚ) ∈ iou_thresholds) :
    (iou_thresholds.foldl (fun m thr => alistSet m thr
        (evalThreshold P G class_names ((P.map (·.1) ++ G.map (·.1)).eraseDups) thr)) []).lookup
      (mkRat 1 2)
      = some (evalThreshold P G class_names ((P.map (·.1) ++ G.map (·.1)).eraseDups)
          (mkRat 1 2)) := by
  have hl := foldl_alistSet_lookup
    (fun thr => evalThreshold P G class_names ((P.map (·.1) ++ G.map (·.1)).eraseDups) thr)
    iou_thresholds [] (mkRat 1 2)
  rw [if_pos h] at hl
  exact hl

theorem lookup_half_of_not_mem (P : PredMap) (G : GtMap) (class_names : List String)
    (iou_thresholds : List ℚ) (h : (mkRat 1 2 : ℚ) ∉ iou_thresholds) :
    (iou_thresholds.foldl (fun m thr => alistSet m thr
        (evalThreshold P G class_names ((P.map (·.1) ++ G.map (·.1)).eraseDups) thr)) []).lookup
      (mkRat 1 2) = none := by
  have hl := foldl_alistSet_lookup
    (fun thr => evalThreshold P G class_names ((P.map (·.1) ++ G.map (·.1)).eraseDups) thr)
    iou_thresholds [] (mkRat 1 2)
  rw [if_neg h] at hl
  exact hl

theorem mAPofAps_spec (aps : List ℚ) :
    ((aps.filter (fun a => 0 < a)) ≠ [] →
      mAPofAps aps = (aps.filter (fun a => 0 < a)).sum
        / ((aps.filter (fun a => 0 < a)).length : ℚ))
    ∧ ((aps.filter (fun a => 0 < a)) = [] → mAPofAps aps = 0) := by
  constructor
  · intro h
    have he : (aps.filter (fun a => 0 < a)).isEmpty = false := by
      rw [← Bool.not_eq_true]
      intro hc
      exact h (List.isEmpty_iff.mp hc)
    rw [mAPofAps]
    simp only [he, Bool.false_eq_true, if_false]
    rw [qdiv_eq, qsum_eq, natToQ_eq]
  · intro h
    rw [mAPofAps]
    simp only [h]
    rfl

/-- Claim C5.  With threshold 0.5 among the requested thresholds, the
reported mAP_50 equals the arithmetic mean of exactly the strictly positive
per-class AP values of the reported per_class_ap map, and equals 0 when no
class has strictly positive AP; the same policy holds for the mAP of every
per-threshold result the pipeline computes. -/
theorem mAP_mean_of_positive_aps (P : PredMap) (G : GtMap)
    (class_names : List String) (iou_thresholds : List ℚ)
    (h : (1/2 : ℚ) ∈ iou_thresholds) :
    (let r := evaluate_detections P G class_names iou_thresholds
     let pos := (r.per_class_ap.map (·.2)).filter (fun a => 0 < a)
     (pos ≠ [] → r.mAP_50 = pos.sum / (pos.length : ℚ)) ∧ (pos = [] → r.mAP_50 = 0))
    ∧ ∀ (imageIds : List String) (iou_threshold : ℚ),
        let t := evalThreshold P G class_names imageIds iou_threshold
        let pos2 := (t.per_class_ap.map (·.2)).filter (fun a => 0 < a)
        (pos2 ≠ [] → t.mAP = pos2.sum / (pos2.length : ℚ)) ∧ (pos2 = [] → t.mAP = 0) := by
  have hmem : (mkRat 1 2 : ℚ) ∈ iou_thresholds := by rw [mkRat_half]; exact h
  constructor
  · have h1 := evaluate_mAP50_proj P G class_names iou_thresholds
    have h2 := evaluate_per_class_ap_proj P G class_names iou_thresholds
    rw [lookup_half_of_mem P G class_names iou_thresholds hmem] at h1 h2
    simp only [Option.map_some', Option.getD_some] at h1 h2
    simp only [h1, h2, evalThreshold_mAP_eq]
    exact mAPofAps_spec _
  · intro imageIds iou_threshold
    simp only [evalThreshold_mAP_eq]
    exact mAPofAps_spec _

/-- Witness for the C5 theorem at a concrete input: with no recorded data
the cat class has AP zero, the positive-AP list is empty, and the theorem
yields a reported mAP_50 of zero. -/
theorem mAP_mean_witness :
    (evaluate_detections [] [] ["cat"] [mkRat 1 2]).mAP_50 = 0 := by
  have h := mAP_mean_of_positive_aps [] [] ["cat"] [mkRat 1 2]
    (by rw [← mkRat_half]; exact List.mem_singleton.mpr rfl)
  exact h.1.2 (by decide)

/-- Claim C10.  When the requested threshold list is non-empty but does not
contain 0.5, the returned top-level mAP_50 is 0 and per_class_ap and
pr_curves are empty maps, whatever the per-threshold results were. -/
theorem mAP50_defaults_without_half_threshold (P : PredMap) (G : GtMap)
    (class_names : List String) (iou_thresholds : List ℚ)
    (h1 : iou_thresholds ≠ []) (h2 : (1/2 : ℚ) ∉ iou_thresholds) :
    (evaluate_detections P G class_names iou_thresholds).mAP_50 = 0
    ∧ (evaluate_detections P G class_names iou_thresholds).per_class_ap = []
    ∧ (evaluate_detections P G class_names iou_thresholds).pr_curves = [] := by
  have hnm : (mkRat 1 2 : ℚ) ∉ iou_thresholds := by rw [mkRat_half]; exact h2
  have hl := lookup_half_of_not_mem P G class_names iou_thresholds hnm
  refine ⟨?_, ?_, ?_⟩
  · rw [evaluate_mAP50_proj, hl]
    rfl
  · rw [evaluate_per_class_ap_proj, hl]
    rfl
  · rw [evaluate_pr_curves_proj, hl]
    rfl

/-- Witness for the C10 theorem at a concrete input. -/
theorem mAP50_defaults_witness :
    (evaluate_detections [] [] ["cat"] [mkRat 3 4]).mAP_50 = 0
    ∧ (evaluate_detections [] [] ["cat"] [mkRat 3 4]).per_class_ap = []
    ∧ (evaluate_detections [] [] ["cat"] [mkRat 3 4]).pr_curves = [] :=
  mAP50_defaults_without_half_threshold [] [] ["cat"] [mkRat 3 4]
    (by decide) (by rw [← mkRat_half]; decide)

/-! Stability of the stable descending sort. -/

theorem orderedInsert_filter_key {β : Type} (key : β → ℚ) (x : β) (s : List β)
    (c : ℚ) :
    (List.orderedInsert (fun a b => key b ≤ key a) x s).filter (fun y => key y == c)
      = if (key x == c) = true then x :: s.filter (fun y => key y == c)
        else s.filter (fun y => key y == c) := by
  rw [List.orderedInsert_eq_take_drop, List.filter_append, List.filter_cons]
  by_cases hx : (key x == c) = true
  · have hc : key x = c := beq_iff_eq.mp hx
    have htake : (List.takeWhile (fun b => decide ¬ key b ≤ key x) s).filter
        (fun y => key y == c) = [] := by
      rw [List.filter_eq_nil_iff]
      intro y hy
      have h0 := @List.mem_takeWhile_imp β (fun b => decide ¬ key b ≤ key x) s y hy
      have h1 : ¬ key y ≤ key x := of_decide_eq_true h0
      rw [Bool.not_eq_true, beq_eq_false_iff_ne]
      intro heq
      exact h1 (le_of_eq (heq.trans hc.symm))
    rw [htake]
    simp only [hx, List.nil_append, if_true]
    conv_rhs =>
      rw [← List.takeWhile_append_dropWhile (fun b => decide ¬ key b ≤ key x) s,
        List.filter_append, htake, List.nil_append]
  · have hx2 : (key x == c) = false := Bool.eq_false_iff.mpr hx
    simp only [hx2, Bool.false_eq_true, if_false]
    conv_rhs =>
      rw [← List.takeWhile_append_dropWhile (fun b => decide ¬ key b ≤ key x) s,
        List.filter_append]

theorem sortDescBy_filter_key {β : Type} (key : β → ℚ) (l : List β) (c : ℚ) :
    (sortDescBy key l).filter (fun x => key x == c) = l.filter (fun x => key x == c) := by
  induction l with
  | nil => rfl
  | cons x xs ih =>
      rw [sortDescBy, List.insertionSort]
      rw [show List.insertionSort (fun a b => key b ≤ key a) xs = sortDescBy key xs from rfl]
      rw [orderedInsert_filter_key, ih, List.filter_cons]

/-- Claim C6.  Evaluation is deterministic as a two-run property: two calls
of evaluate_detections on identical inputs give identical results; and the
pooled confidence ranking is stable on ties — the sort used for the pooled
(confidence, tp-flag) list keeps entries of any fixed confidence in their
pre-sort order, so the tie order cannot vary between the two calls. -/
theorem evaluate_deterministic_and_stable :
    (∀ (P : PredMap) (G : GtMap) (class_names : List String)
        (iou_thresholds : List ℚ),
        evaluate_detections P G class_names iou_thresholds
          = evaluate_detections P G class_names iou_thresholds)
    ∧ ∀ (l : List (ℚ × Bool)) (c : ℚ),
        (sortDescBy Prod.fst l).filter (fun x => x.1 == c)
          = l.filter (fun x => x.1 == c) :=
  ⟨fun _ _ _ _ => rfl, fun l c => sortDescBy_filter_key Prod.fst l c⟩

/-- Claim C8.  Recording one image holding the single non-difficult cat
ground truth on the box [0,0,10,10] and the single cat prediction at
confidence 0.9 on the same box, evaluation at IoU threshold 0.5 reports
per-class AP one for cat, aggregate precision one and aggregate recall one. -/
theorem cat_scenario_perfect_scores :
    ((get_evaluation (runOps catOps) "yolov5").1.map
      (fun r => (r.per_class_ap.lookup "cat", r.aggregate_precision, r.aggregate_recall)))
    = some (some 1, 1, 1) := by
  decide

/-! Rounding monotonicity and PR-curve subsampling bounds. -/

theorem mid_eq (q : ℚ) :
    (Rat.divInt (2 * q.floor + 1) 2 : ℚ) = (q.floor : ℚ) + 1/2 := by
  rw [Rat.divInt_eq_div]
  push_cast
  ring

theorem ratFloor_le (q : ℚ) : ((q.floor : ℤ) : ℚ) ≤ q := by
  rw [ratFloor_eq]
  exact Int.floor_le q

theorem lt_ratFloor_add_one (q : ℚ) : q < (q.floor : ℚ) + 1 := by
  rw [ratFloor_eq]
  exact Int.lt_floor_add_one q

theorem pyRoundInt_le (q : ℚ) : (pyRoundInt q : ℚ) ≤ q + 1/2 := by
  rw [pyRoundInt]
  by_cases h1 : q < Rat.divInt (2 * q.floor + 1) 2
  · rw [if_pos h1]
    have := ratFloor_le q
    linarith
  · rw [if_neg h1]
    have h1a : (q.floor : ℚ) + 1/2 ≤ q := by
      rw [← mid_eq]
      exact not_lt.mp h1
    by_cases h2 : Rat.divInt (2 * q.floor + 1) 2 < q
    · rw [if_pos h2]
      push_cast
      linarith
    · rw [if_neg h2]
      by_cases h3 : q.floor % 2 = 0
      · rw [if_pos h3]
        have := ratFloor_le q
        linarith
      · rw [if_neg h3]
        push_cast
        linarith

theorem pyRoundInt_ge (q : ℚ) : q - 1/2 ≤ (pyRoundInt q : ℚ) := by
  rw [pyRoundInt]
  by_cases h1 : q < Rat.divInt (2 * q.floor + 1) 2
  · rw [if_pos h1]
    rw [mid_eq] at h1
    linarith
  · rw [if_neg h1]
    have hup := lt_ratFloor_add_one q
    by_cases h2 : Rat.divInt (2 * q.floor + 1) 2 < q
    · rw [if_pos h2]
      push_cast
      linarith
    · rw [if_neg h2]
      have h2a : q ≤ (q.floor : ℚ) + 1/2 := by
        rw [← mid_eq]
        exact not_lt.mp h2
      by_cases h3 : q.floor % 2 = 0
      · rw [if_pos h3]
        linarith
      · rw [if_neg h3]
        push_cast
        linarith

theorem pyRoundInt_mono {x y : ℚ} (h : x ≤ y) : pyRoundInt x ≤ pyRoundInt y := by
  by_contra hcon
  push_neg at hcon
  have hint : pyRoundInt y + 1 ≤ pyRoundInt x := Int.add_one_le_iff.mpr hcon
  have hq : (pyRoundInt y : ℚ) + 1 ≤ (pyRoundInt x : ℚ) := by exact_mod_cast hint
  have c1 : (pyRoundInt x : ℚ) ≤ x + 1/2 := pyRoundInt_le x
  have c2 : y - 1/2 ≤ (pyRoundInt y : ℚ) := pyRoundInt_ge y
  have hxy : x = y := by linarith
  subst hxy
  exact absurd hcon (lt_irrefl _)

theorem pyRound4_mono {x y : ℚ} (h : x ≤ y) : pyRound4 x ≤ pyRound4 y := by
  rw [pyRound4, pyRound4, Rat.divInt_eq_div, Rat.divInt_eq_div]
  have hm : qmul x (natToQ 10000) ≤ qmul y (natToQ 10000) := by
    rw [qmul_eq, qmul_eq, natToQ_eq]
    exact mul_le_mul_of_nonneg_right h (by norm_num)
  have hr : ((pyRoundInt (qmul x (natToQ 10000)) : ℤ) : ℚ)
      ≤ ((pyRoundInt (qmul y (natToQ 10000)) : ℤ) : ℚ) := by
    exact_mod_cast pyRoundInt_mono hm
  have hc : (0 : ℚ) < ((10000 : ℤ) : ℚ) := by norm_num
  exact (div_le_div_iff_of_pos_right hc).mpr hr

theorem pyRange0_pairwise_lt (n step : ℕ) (hs : 0 < step) :
    (pyRange0 n step).Pairwise (· < ·) := by
  rw [pyRange0]
  exact (List.pairwise_lt_range _).map _
    (fun a b hab => mul_lt_mul_of_pos_right hab hs)

theorem pyRange0_mem_lt (n step i : ℕ) (hs : 0 < step) (hi : i ∈ pyRange0 n step) :
    i < n := by
  rw [pyRange0, List.mem_map] at hi
  obtain ⟨j, hj, rfl⟩ := hi
  rw [List.mem_range] at hj
  have h1 : j + 1 ≤ (n + step - 1) / step := hj
  have h2 : (j + 1) * step ≤ n + step - 1 := (Nat.le_div_iff_mul_le hs).mp h1
  have h3 : j * step + step = (j + 1) * step := by ring
  omega

theorem pairwise_filterMap_get {γ : Type} (r : γ → γ → Prop) (l : List γ)
    (hl : l.Pairwise r) :
    ∀ (is : List ℕ), is.Pairwise (· < ·) →
      (is.filterMap (l.get? ·)).Pairwise r := by
  intro is
  induction is with
  | nil => intro _; exact List.Pairwise.nil
  | cons i js ih =>
      intro hp
      rw [List.pairwise_cons] at hp
      rw [List.filterMap_cons]
      cases hgi : l.get? i with
      | none => exact ih hp.2
      | some a =>
          apply List.Pairwise.cons ?_ (ih hp.2)
          intro b hb
          rw [List.mem_filterMap] at hb
          obtain ⟨j, hj, hgj⟩ := hb
          obtain ⟨hilt, hia⟩ := List.get?_eq_some.mp hgi
          obtain ⟨hjlt, hjb⟩ := List.get?_eq_some.mp hgj
          rw [← hia, ← hjb]
          exact List.pairwise_iff_get.mp hl ⟨i, hilt⟩ ⟨j, hjlt⟩ (hp.1 j hj)

theorem pr_curve_subsample_sorted (pts : List CurvePoint) :
    (pr_curve_subsample pts).Pairwise
      (fun p q : RP => p.«recall» ≤ q.«recall») := by
  rw [pr_curve_subsample]
  by_cases he : pts.isEmpty = true
  · rw [if_pos he]
    exact List.Pairwise.nil
  · rw [if_neg he]
    refine List.Pairwise.map _ (fun a b hab => pyRound4_mono hab) ?_
    refine pairwise_filterMap_get recallLE _ ?_ _ (pyRange0_pairwise_lt _ _ ?_)
    · exact List.sorted_insertionSort recallLE pts
    · exact Nat.lt_of_lt_of_le Nat.zero_lt_one (le_max_left 1 _)

theorem pr_curve_subsample_len (pts : List CurvePoint) :
    (pr_curve_subsample pts).length ≤ 99 := by
  rw [pr_curve_subsample]
  by_cases he : pts.isEmpty = true
  · rw [if_pos he]
    simp
  · rw [if_neg he]
    rw [List.length_map]
    refine le_trans (List.length_filterMap_le _ _) ?_
    rw [pyRange0, List.length_map, List.length_range, List.length_insertionSort]
    have hs : 0 < max 1 (pts.length / 50) :=
      Nat.lt_of_lt_of_le Nat.zero_lt_one (le_max_left _ _)
    have h100 : (pts.length + max 1 (pts.length / 50) - 1) / max 1 (pts.length / 50) < 100 := by
      rw [Nat.div_lt_iff_lt_mul hs]
      by_cases h0 : pts.length / 50 = 0
      · rw [h0, Nat.max_eq_left (Nat.zero_le 1)]
        omega
      · rw [Nat.max_eq_right (Nat.one_le_iff_ne_zero.mpr h0)]
        omega
    omega

/-- Claim C7, amended part.  For every store state and model, get_pr_curve
returns points ordered by non-decreasing recall, and its length never
exceeds 99 (the stride max(1, n // 50) guarantees at most 99 points, not
approximately 50: a pooled set of 50 <= n <= 99 points is returned whole). -/
theorem pr_curve_sorted_and_bounded (s : StoreState) (model : String) :
    ((get_pr_curve s model).1).Pairwise (fun p q : RP => p.«recall» ≤ q.«recall»)
    ∧ (get_pr_curve s model).1.length ≤ 99 := by
  cases h : (get_evaluation s model).1 with
  | none =>
      have hc : (get_pr_curve s model).1 = [] := by
        simp [get_pr_curve, h]
      rw [hc]
      exact ⟨List.Pairwise.nil, by simp⟩
  | some ev =>
      have hc : (get_pr_curve s model).1
          = pr_curve_subsample ((ev.pr_curves.map (·.2)).flatten) := by
        simp [get_pr_curve, h]
      rw [hc]
      exact ⟨pr_curve_subsample_sorted _, pr_curve_subsample_len _⟩

set_option maxRecDepth 10000 in
/-- Claim C7, counterexample to the approximately-50 cap: a store holding
one image with 98 cat predictions and one ground truth yields a pooled PR
point set of 99 points, and get_pr_curve returns all 99 of them, well above
any cap of about 50. -/
theorem pr_curve_cap_cex :
    (get_pr_curve (runOps ops98) "yolov5").1.length = 99
    ∧ ¬ (get_pr_curve (runOps ops98) "yolov5").1.length ≤ 51 := by
  constructor
  · decide
  · decide

/-! Broadcaster lemmas. -/

theorem broadcast_event_eq_filterMap {α : Type} (subs : List (Subscriber α))
    (event : α) :
    broadcast_event subs event
      = subs.filterMap (fun s => if queueFull s then none
          else some (Subscriber.mk (s.queue ++ [event]) s.maxsize)) := by
  induction subs with
  | nil => rfl
  | cons s ss ih =>
      by_cases hf : queueFull s = true
      · simpa [broadcast_event, List.filterMap_cons, hf] using ih
      · simpa [broadcast_event, List.filterMap_cons, hf] using ih

theorem filterMap_length_filter {α : Type} (subs : List (Subscriber α))
    (event : α) :
    (subs.filterMap (fun s => if queueFull s then none
        else some (Subscriber.mk (s.queue ++ [event]) s.maxsize))).length
      = (subs.filter (fun s => !queueFull s)).length := by
  induction subs with
  | nil => rfl
  | cons s ss ih =>
      by_cases hf : queueFull s = true
      · simp [List.filterMap_cons, List.filter_cons, hf, ih]
      · simp [List.filterMap_cons, List.filter_cons, hf, ih]

/-- Claim C9.  broadcast_event is a total function of the subscriber list
(no waiting is possible in this model — put_nowait either enqueues or raises
at once): the result is exactly the non-full subscribers, in their original
order, each with the event appended to its queue, while every positionally
full subscriber is dropped from the list rather than raising or stalling.
In particular every subscriber with space receives the event and the
surviving count is the count of non-full subscribers. -/
theorem broadcast_event_spec {α : Type} (subscribers : List (Subscriber α))
    (event : α) :
    broadcast_event subscribers event
      = subscribers.filterMap (fun s => if queueFull s then none
          else some (Subscriber.mk (s.queue ++ [event]) s.maxsize))
    ∧ (∀ s ∈ subscribers, queueFull s = false →
        Subscriber.mk (s.queue ++ [event]) s.maxsize ∈ broadcast_event subscribers event)
    ∧ (broadcast_event subscribers event).length
        = (subscribers.filter (fun s => !queueFull s)).length := by
  refine ⟨broadcast_event_eq_filterMap subscribers event, ?_, ?_⟩
  · intro s hs hfull
    rw [broadcast_event_eq_filterMap]
    exact List.mem_filterMap.mpr ⟨s, hs, by rw [hfull]; simp⟩
  · rw [broadcast_event_eq_filterMap]
    exact filterMap_length_filter subscribers event

/-- Witness for the C9 theorem at a concrete input. -/
theorem broadcast_event_witness :
    Subscriber.mk (([] : List ℕ) ++ [7]) 2 ∈ broadcast_event [Subscriber.mk [] 2] 7 :=
  (broadcast_event_spec [Subscriber.mk ([] : List ℕ) 2] 7).2.1
    (Subscriber.mk [] 2) (by simp) (by decide)

end VisionForge
